import Mathlib

/-!
Verification development for the benchmarks-platform load generator.

The Rust sources are shallowly embedded as Lean functions:
* `percentile`, `reduceStats` — the latency statistics block of `runner.rs`
  (lines 159-181 and 568-576), with `Duration` values represented as
  natural numbers of nanoseconds and Rust `Duration / u32` division
  reproduced bit-for-bit by `durDivU32`.
* `sendRequest` — the HTTP adapter of `http.rs` (HTTP/1.1 branch; the
  HTTP/2 branch is dead code, callers always pass `false`).  Wall-clock
  behaviour is modelled by giving every I/O phase an explicit duration in
  an environment record; `tokio::time::timeout(T, fut)` is modelled as
  "the future wins iff its duration is at most `T`".
* `sendTcp`, `expectLoop`, `noExpectLoop` — the TCP adapter of `tcp.rs`.
  A read that is never completed by the peer is modelled by exhausting the
  event list, in which case the attempt never terminates (result `none`).
* `httpRun`, `tcpRun`, `httpWorker`, `tcpWorker`, `requestsPerWorker` —
  the worker-pool runners of `runner.rs`.  Concurrency is modelled by
  giving each worker its own stream of attempt environments; the shared
  atomic counters are the (wrapping, 64-bit) sums of the per-worker
  tallies, which is exactly the set of values the relaxed atomics can
  reach once all workers have stopped.
* `HttpConfig`, `TcpConfig`, `UdsConfig` and their `…Save` forms together
  with `toHttpConfig` etc. — `config.rs` / `config_manager.rs`.  Rust
  `String`s are represented as lists of Unicode code points, byte buffers
  (`Vec<u8>`) as lists of bytes, and the strict/lossy UTF-8 conversions of
  the standard library are implemented over those lists.

Machine integers: `usize` arithmetic wraps modulo `2^64` where the source
can overflow (release-profile semantics); this is written out explicitly.
External collaborators (the hyper URI parser, the `regex` crate, header
validation inside `Request::builder`) enter the model as oracle
parameters, never as stubs of code that lives in this repository.
-/

/-- Code points of a Lean string literal; used to transcribe the Rust
string literals appearing in the source. -/
def strCp (s : String) : List Nat :=
  s.data.map Char.toNat

/-- `usize::MAX`. -/
def USIZEMAX : Nat := 2 ^ 64 - 1

/-- `2^64`, the modulus of Rust `usize` arithmetic. -/
def U64MOD : Nat := 2 ^ 64

/-! ## UTF-8 (Rust `std` semantics over byte lists)

`String::from_utf8` accepts exactly the well-formed sequences of the
UTF-8 table used by `core::str::validations` (no overlongs, no
surrogates, at most U+10FFFF).  `String::from_utf8_lossy` replaces each
maximal invalid subpart with U+FFFD. -/

/-- UTF-8 encoding of one Unicode scalar value. -/
def utf8EncodeChar (c : Nat) : List Nat :=
  if c < 0x80 then [c]
  else if c < 0x800 then [0xC0 + c / 64, 0x80 + c % 64]
  else if c < 0x10000 then
    [0xE0 + c / 4096, 0x80 + (c / 64) % 64, 0x80 + c % 64]
  else
    [0xF0 + c / 262144, 0x80 + (c / 4096) % 64, 0x80 + (c / 64) % 64,
     0x80 + c % 64]

/-- UTF-8 encoding of a code-point list (Rust `str::as_bytes`). -/
def utf8Encode (l : List Nat) : List Nat :=
  l.foldr (fun c acc => utf8EncodeChar c ++ acc) []

/-- A UTF-8 continuation byte (`0x80..=0xBF`). -/
def isCont (b : Nat) : Bool :=
  0x80 ≤ b && b ≤ 0xBF

/-- One step of the Rust UTF-8 validator: the scalar value decoded at the
head of the list and the number of bytes consumed, or `none` if the head
does not start a well-formed sequence. -/
def utf8DecodeStep : List Nat → Option (Nat × Nat)
  | [] => none
  | b0 :: rest =>
    if b0 < 0x80 then some (b0, 1)
    else if 0xC2 ≤ b0 && b0 ≤ 0xDF then
      match rest with
      | b1 :: _ =>
        if isCont b1 then some ((b0 - 0xC0) * 64 + (b1 - 0x80), 2) else none
      | [] => none
    else if 0xE0 ≤ b0 && b0 ≤ 0xEF then
      match rest with
      | b1 :: b2 :: _ =>
        let okB1 :=
          if b0 = 0xE0 then 0xA0 ≤ b1 && b1 ≤ 0xBF
          else if b0 = 0xED then 0x80 ≤ b1 && b1 ≤ 0x9F
          else isCont b1
        if okB1 && isCont b2 then
          some ((b0 - 0xE0) * 4096 + (b1 - 0x80) * 64 + (b2 - 0x80), 3)
        else none
      | _ => none
    else if 0xF0 ≤ b0 && b0 ≤ 0xF4 then
      match rest with
      | b1 :: b2 :: b3 :: _ =>
        let okB1 :=
          if b0 = 0xF0 then 0x90 ≤ b1 && b1 ≤ 0xBF
          else if b0 = 0xF4 then 0x80 ≤ b1 && b1 ≤ 0x8F
          else isCont b1
        if okB1 && isCont b2 && isCont b3 then
          some ((b0 - 0xF0) * 262144 + (b1 - 0x80) * 4096 +
                (b2 - 0x80) * 64 + (b3 - 0x80), 4)
        else none
      | _ => none
    else none

/-- Length of the maximal invalid subpart at the head of the list (the
number of bytes `from_utf8_lossy` replaces with one U+FFFD): the lead
byte plus every admissible continuation byte that follows it. -/
def invalidLen : List Nat → Nat
  | [] => 1
  | b0 :: rest =>
    if 0xE0 ≤ b0 && b0 ≤ 0xEF then
      match rest with
      | b1 :: more =>
        let okB1 :=
          if b0 = 0xE0 then 0xA0 ≤ b1 && b1 ≤ 0xBF
          else if b0 = 0xED then 0x80 ≤ b1 && b1 ≤ 0x9F
          else isCont b1
        if okB1 then
          match more with
          | b2 :: _ => if isCont b2 then 3 else 2
          | [] => 2
        else 1
      | [] => 1
    else if 0xF0 ≤ b0 && b0 ≤ 0xF4 then
      match rest with
      | b1 :: more =>
        let okB1 :=
          if b0 = 0xF0 then 0x90 ≤ b1 && b1 ≤ 0xBF
          else if b0 = 0xF4 then 0x80 ≤ b1 && b1 ≤ 0x8F
          else isCont b1
        if okB1 then
          match more with
          | b2 :: more2 =>
            if isCont b2 then
              match more2 with
              | b3 :: _ => if isCont b3 then 4 else 3
              | [] => 3
            else 2
          | [] => 2
        else 1
      | [] => 1
    else 1

/-- Fuel-indexed strict UTF-8 decoding; `none` on any invalid sequence. -/
def utf8DecodeAux : Nat → List Nat → Option (List Nat)
  | _, [] => some []
  | 0, _ :: _ => none
  | fuel + 1, l =>
    match utf8DecodeStep l with
    | some (c, k) => (utf8DecodeAux fuel (l.drop k)).map (c :: ·)
    | none => none

/-- Rust `String::from_utf8` on a byte list: the decoded code points, or
`none` when the bytes are not strictly valid UTF-8. -/
def utf8Decode? (l : List Nat) : Option (List Nat) :=
  utf8DecodeAux l.length l

/-- Fuel-indexed lossy UTF-8 decoding. -/
def utf8LossyAux : Nat → List Nat → List Nat
  | _, [] => []
  | 0, _ :: _ => []
  | fuel + 1, l =>
    match utf8DecodeStep l with
    | some (c, k) => c :: utf8LossyAux fuel (l.drop k)
    | none => 0xFFFD :: utf8LossyAux fuel (l.drop (invalidLen l))

/-- Rust `String::from_utf8_lossy` on a byte list. -/
def utf8Lossy (l : List Nat) : List Nat :=
  utf8LossyAux l.length l

/-! ## `error.rs` — the error taxonomy -/

/-- `BenchmarkError` of `error.rs`.  Payloads of `Io`, `Http` and `Other`
are opaque to every caller in the source and are dropped; `String`
payloads are kept as code-point lists. -/
inductive BenchmarkError where
  | Io : BenchmarkError
  | Http : BenchmarkError
  | ConnectionRefused : BenchmarkError
  | ConnectionTimeout : Nat → BenchmarkError
  | RequestTimeout : Nat → BenchmarkError
  | Config : List Nat → BenchmarkError
  | ResponseValidation : List Nat → BenchmarkError
  | Parse : List Nat → BenchmarkError
  | Other : BenchmarkError
deriving DecidableEq, Repr

/-! ## `runner.rs` — latency statistics reducer -/

/-- `percentile` of `runner.rs` lines 568-576, with the percentile given
as an exact fraction `pNum / pDen` (the source passes the `f64` constants
0.5, 0.9, 0.95, 0.99 and floors the product). -/
def percentile (durations : List Nat) (pNum pDen : Nat) : Nat :=
  if durations.isEmpty then 0
  else
    let index := durations.length * pNum / pDen
    let index := min index (durations.length - 1)
    durations.getD index 0

/-- Rust `Duration / u32` on total nanoseconds (`Duration::checked_div`):
seconds and sub-second nanoseconds are divided separately and both
remainders are folded into a carry term, which makes the result the
floor of the total nanosecond count divided by `r`. -/
def durDivU32 (n r : Nat) : Nat :=
  let secs := n / 1000000000 / r
  let extraSecs := n / 1000000000 % r
  let nanos := n % 1000000000 / r
  let extraNanos := n % 1000000000 % r
  secs * 1000000000 + nanos + (extraSecs * 1000000000 + extraNanos) / r

/-- The latency fields of the report. -/
structure LatStats where
  avg : Nat
  min : Nat
  max : Nat
  p50 : Nat
  p90 : Nat
  p95 : Nat
  p99 : Nat
deriving DecidableEq, Repr

/-- The statistics block shared by the three runners (`runner.rs` lines
159-181): sort ascending, then average, first/last element and the four
floor-rule percentiles, everything zero on the empty list. -/
def reduceStats (samples : List Nat) : LatStats :=
  let sorted := samples.insertionSort (· ≤ ·)
  let avg :=
    if sorted.isEmpty then 0
    else durDivU32 (sorted.foldl (· + ·) 0) sorted.length
  { avg := avg
    min := sorted.headD 0
    max := sorted.getLastD 0
    p50 := percentile sorted 50 100
    p90 := percentile sorted 90 100
    p95 := percentile sorted 95 100
    p99 := percentile sorted 99 100 }

/-! ## `http.rs` — HTTP adapter -/

/-- HTTP method token bytes accepted by `Method::from_bytes` for
non-standard methods (the `tchar` set of RFC 7230). -/
def isTchar (c : Nat) : Bool :=
  (48 ≤ c && c ≤ 57) || (65 ≤ c && c ≤ 90) || (97 ≤ c && c ≤ 122) ||
  c = 33 || c = 35 || c = 36 || c = 37 || c = 38 || c = 39 || c = 42 ||
  c = 43 || c = 45 || c = 46 || c = 94 || c = 95 || c = 96 || c = 124 ||
  c = 126

/-- Validity of a method string for `Method::from_bytes`. -/
def isMethodToken (m : List Nat) : Bool :=
  !m.isEmpty && m.all isTchar

/-- The wall-clock behaviour of one HTTP attempt: how long each I/O phase
would take and how it would end.  Durations are nanoseconds. -/
structure HttpAttemptEnv where
  connectDur : Nat
  connectOk : Bool
  handshakeDur : Nat
  handshakeOk : Bool
  sendDur : Nat
  sendOk : Bool
  readDur : Nat
  readOk : Bool
  status : Nat
  respBody : List Nat
deriving DecidableEq, Repr

/-- `send_request` of `http.rs` (HTTP/1.1 branch).  `hasHost` is
`uri.host().is_some()`, `buildOk` abstracts the hyper request-builder
validation of the header strings.  Each `tokio::time::timeout` call is
given the full, fresh `timeoutDuration`; a phase times out exactly when
its duration exceeds `T`.  On success the elapsed time is the sum of the
phase durations (`start_time.elapsed()`). -/
def sendRequest (hasHost : Bool) (method : List Nat) (buildOk : Bool)
    (T : Nat) (env : HttpAttemptEnv) :
    Except BenchmarkError (Nat × List Nat × Nat) :=
  if !hasHost then .error (.Config (strCp "Missing host in URL")) else
  if T < env.connectDur then .error (.ConnectionTimeout T) else
  if !env.connectOk then .error .ConnectionRefused else
  if !isMethodToken method then
    .error (.Parse (strCp "Invalid HTTP method: " ++ method)) else
  if !buildOk then .error (.Parse (strCp "Failed to build request")) else
  if !env.handshakeOk then .error .Http else
  if T < env.sendDur then .error (.RequestTimeout T) else
  if !env.sendOk then .error .Http else
  if T < env.readDur then .error (.RequestTimeout T) else
  if !env.readOk then .error .Http else
  .ok (env.status, env.respBody,
       env.connectDur + env.handshakeDur + env.sendDur + env.readDur)

/-- The per-attempt timing discipline described by the spec (§4.1): the
connect phase has deadline `T` from the start and the send/read phase is
awaited with only the remaining portion of `T`.  Used solely to compare
the wording of the spec against `sendRequest`. -/
def sendRequestSpecBudget (hasHost : Bool) (method : List Nat)
    (buildOk : Bool) (T : Nat) (env : HttpAttemptEnv) :
    Except BenchmarkError (Nat × List Nat × Nat) :=
  if !hasHost then .error (.Config (strCp "Missing host in URL")) else
  if T < env.connectDur then .error (.ConnectionTimeout T) else
  if !env.connectOk then .error .ConnectionRefused else
  if !isMethodToken method then
    .error (.Parse (strCp "Invalid HTTP method: " ++ method)) else
  if !buildOk then .error (.Parse (strCp "Failed to build request")) else
  if !env.handshakeOk then .error .Http else
  if T - env.connectDur < env.sendDur then .error (.RequestTimeout T) else
  if !env.sendOk then .error .Http else
  if T - env.connectDur - env.sendDur < env.readDur then
    .error (.RequestTimeout T) else
  if !env.readOk then .error .Http else
  .ok (env.status, env.respBody,
       env.connectDur + env.handshakeDur + env.sendDur + env.readDur)

/-! ## `tcp.rs` — TCP adapter -/

/-- One completed `stream.read(&mut buffer)` call as the peer would
answer it: a data chunk, a clean EOF (`Ok(0)`), or an I/O error, each
taking `d` nanoseconds.  A read the peer never completes is modelled by
the event list running out. -/
inductive ReadEv where
  | chunk : Nat → List Nat → ReadEv
  | eof : Nat → ReadEv
  | ioErr : Nat → ReadEv
deriving DecidableEq, Repr

/-- The wall-clock behaviour of one TCP attempt. -/
structure TcpAttemptEnv where
  connectDur : Nat
  connectOk : Bool
  writeDur : Nat
  writeOk : Bool
  reads : List ReadEv
deriving DecidableEq, Repr

/-- The per-read match check of `tcp.rs` lines 56-61: the regex is tested
only when the whole accumulated buffer is strictly valid UTF-8
(`String::from_utf8`); otherwise the check is skipped. -/
def checkBuf (m : List Nat → Bool) (buf : List Nat) : Bool :=
  match utf8Decode? buf with
  | some text => m text
  | none => false

/-- Outcome of the expect-pattern read loop. -/
inductive ExpectOut where
  | found : List Nat → Nat → ExpectOut
  | notFound : List Nat → Nat → ExpectOut
  | readErr : Nat → ExpectOut
  | blocked : ExpectOut
deriving DecidableEq, Repr

/-- The expect-pattern read loop of `tcp.rs` lines 47-65.  `t` is the
time elapsed since the deadline of the loop was taken (`Instant::now() +
timeout_duration` is computed after connect and write, so the budget is a
fresh `T`).  The deadline is consulted only by the `while` condition,
between reads; each `stream.read` itself is awaited without any timeout,
so an event list that runs out leaves the loop `blocked` forever. -/
def expectLoop (T : Nat) (m : List Nat → Bool) :
    List ReadEv → Nat → List Nat → ExpectOut
  | [], t, buf => if T ≤ t then .notFound buf t else .blocked
  | .chunk d bytes :: rest, t, buf =>
    if T ≤ t then .notFound buf t
    else
      let t' := t + d
      let buf' := buf ++ bytes
      if checkBuf m buf' then .found buf' t'
      else expectLoop T m rest t' buf'
  | .eof d :: _, t, buf =>
    if T ≤ t then .notFound buf t else .notFound buf (t + d)
  | .ioErr d :: _, t, buf =>
    if T ≤ t then .notFound buf t else .readErr (t + d)

/-- The no-pattern read phase of `tcp.rs` lines 72-88: the whole
read-until-EOF loop is raced against one `timeout(T, …)`; expiry cancels
the read in flight and is treated as normal termination, returning
whatever accumulated by then at phase time `T`. -/
def noExpectLoop (T : Nat) :
    List ReadEv → Nat → List Nat → Except Unit (List Nat × Nat)
  | [], _, buf => .ok (buf, T)
  | .chunk d bytes :: rest, t, buf =>
    if T < t + d then .ok (buf, T)
    else noExpectLoop T rest (t + d) (buf ++ bytes)
  | .eof d :: _, t, buf =>
    if T < t + d then .ok (buf, T) else .ok (buf, t + d)
  | .ioErr d :: _, t, buf =>
    if T < t + d then .ok (buf, T) else .error ()

/-- The message of the `ResponseValidation` error raised by `send_tcp`
(the apostrophes are U+0027, code 39). -/
def expectMsgCp (pat : List Nat) : List Nat :=
  strCp "Expected pattern " ++ [39] ++ pat ++ [39] ++
  strCp " not found in response"

/-- Duration of the write phase: the write is skipped entirely when no
data is configured or the data is empty. -/
def writePhaseDur (data : Option (List Nat)) (env : TcpAttemptEnv) : Nat :=
  match data with
  | some bs => if bs.isEmpty then 0 else env.writeDur
  | none => 0

/-- The optional write phase of `send_tcp` (`tcp.rs` lines 28-36): the
write is skipped when no data is configured or the data is empty;
otherwise expiry of the fresh `timeout(T, write_all)` yields
`RequestTimeout` and a write failure within the budget yields `Io`. -/
def writeStep (data : Option (List Nat)) (T : Nat) (env : TcpAttemptEnv) :
    Option BenchmarkError :=
  match data with
  | some bs =>
    if bs.isEmpty then none
    else if T < env.writeDur then some (.RequestTimeout T)
    else if !env.writeOk then some .Io
    else none
  | none => none

/-- `send_tcp` of `tcp.rs`.  `compile` is the `Regex::new` oracle of the
`regex` crate: `none` for an invalid pattern, otherwise the compiled
matcher as a predicate on decoded code-point text.  The overall result is
`none` when the attempt never terminates (a read the peer never answers
inside the expect loop). -/
def sendTcp (compile : List Nat → Option (List Nat → Bool))
    (data : Option (List Nat)) (expect : Option (List Nat)) (T : Nat)
    (env : TcpAttemptEnv) :
    Option (Except BenchmarkError (List Nat × Nat)) :=
  if T < env.connectDur then some (.error (.ConnectionTimeout T)) else
  if !env.connectOk then some (.error .ConnectionRefused) else
  match writeStep data T env with
  | some e => some (.error e)
  | none =>
  let wD := writePhaseDur data env
  match expect with
  | some pat =>
    match compile pat with
    | none =>
      some (.error (.Parse (strCp "Invalid regex pattern: " ++ pat)))
    | some m =>
      match expectLoop T m env.reads 0 [] with
      | .found buf t => some (.ok (buf, env.connectDur + wD + t))
      | .notFound _ _ =>
        some (.error (.ResponseValidation (expectMsgCp pat)))
      | .readErr _ => some (.error .Io)
      | .blocked => none
  | none =>
    match noExpectLoop T env.reads 0 [] with
    | .ok (buf, t) => some (.ok (buf, env.connectDur + wD + t))
    | .error _ => some (.error .Io)

/-! ## `runner.rs` — worker pool and runners -/

/-- `requests_per_worker` (`runner.rs` lines 50-55): ceiling division
`(requests + concurrency - 1) / concurrency` in wrapping `usize`
arithmetic when `requests > 0`, otherwise the `usize::MAX` sentinel for
"run until the duration is reached". -/
def requestsPerWorker (requests concurrency : Nat) : Nat :=
  if requests > 0 then
    (requests + concurrency - 1) % U64MOD / concurrency
  else USIZEMAX

/-- The tallies one worker contributes to the shared atomic counters and
to the sample channel. -/
structure WorkerStats where
  completed : Nat
  successful : Nat
  bytesSent : Nat
  bytesReceived : Nat
  samples : List Nat
deriving DecidableEq, Repr

def WorkerStats.empty : WorkerStats :=
  ⟨0, 0, 0, 0, []⟩

/-- `headers.iter().fold(0, |acc, (k, v)| acc + k.len() + v.len())` —
Rust `String::len` is the UTF-8 byte length. -/
def httpHeaderBytes (headers : List (List Nat × List Nat)) : Nat :=
  headers.foldl
    (fun acc kv => acc + (utf8Encode kv.1).length + (utf8Encode kv.2).length)
    0

/-- One HTTP worker (`runner.rs` lines 86-128): up to `fuel =
requests_per_worker` attempts, stopping early when the deadline check
fires (modelled by the environment stream running out).  On success the
worker bumps `successful`, adds the *response* body length to
`bytes_received`, adds response-body length plus header byte count to
`bytes_sent` (skipped when `checked_add` overflows), and sends the
latency sample; every attempt bumps `completed`. -/
def httpWorker (hasHost : Bool) (method : List Nat) (buildOk : Bool)
    (T headerBytes : Nat) :
    Nat → List HttpAttemptEnv → WorkerStats
  | 0, _ => .empty
  | _ + 1, [] => .empty
  | fuel + 1, e :: rest =>
    let tail := httpWorker hasHost method buildOk T headerBytes fuel rest
    match sendRequest hasHost method buildOk T e with
    | .ok (_, respBody, elapsed) =>
      let sent :=
        if respBody.length + headerBytes ≤ USIZEMAX then
          respBody.length + headerBytes
        else 0
      { completed := tail.completed + 1
        successful := tail.successful + 1
        bytesSent := tail.bytesSent + sent
        bytesReceived := tail.bytesReceived + respBody.length
        samples := elapsed :: tail.samples }
    | .error _ =>
      { tail with completed := tail.completed + 1 }

/-- The report record assembled at the end of a run (`runner.rs` lines
189-207).  `total_time` and `requests_per_second` are wall-clock and
floating-point quantities outside the model and are omitted. -/
structure BenchmarkReport where
  target : List Nat
  protocol : List Nat
  concurrency : Nat
  totalRequests : Nat
  successfulRequests : Nat
  failedRequests : Nat
  stats : LatStats
  bytesSent : Nat
  bytesReceived : Nat
deriving DecidableEq, Repr

/-- Final counter snapshot: the wrapping 64-bit sum of the per-worker
contributions (each `fetch_add` is mod `2^64`). -/
def sumCounters (f : WorkerStats → Nat) (workers : List WorkerStats) : Nat :=
  (workers.foldl (fun acc w => acc + f w) 0) % U64MOD

/-- Samples drained from the channel after all workers stopped. -/
def mergedSamples (workers : List WorkerStats) : List Nat :=
  workers.foldl (fun acc w => acc ++ w.samples) []

/-- Assemble the `BenchmarkReport` from the worker tallies; `failed =
completed.saturating_sub(successful)` is plain truncated subtraction. -/
def assembleReport (target protocol : List Nat) (concurrency : Nat)
    (workers : List WorkerStats) : BenchmarkReport :=
  let completed := sumCounters (·.completed) workers
  let successful := sumCounters (·.successful) workers
  { target := target
    protocol := protocol
    concurrency := concurrency
    totalRequests := completed
    successfulRequests := successful
    failedRequests := completed - successful
    stats := reduceStats (mergedSamples workers)
    bytesSent := sumCounters (·.bytesSent) workers
    bytesReceived := sumCounters (·.bytesReceived) workers }

/-- `HttpConfig` of `config.rs`.  Strings are code-point lists, the body
is a byte list, `duration` and `timeout` are nanoseconds (the runner
hands `config.timeout` to the adapter unchanged). -/
structure HttpConfig where
  url : List Nat
  method : List Nat
  headers : List (List Nat × List Nat)
  body : Option (List Nat)
  concurrency : Nat
  requests : Nat
  duration : Nat
  timeout : Nat
  keep_alive : Bool
deriving DecidableEq, Repr

/-- `HttpRunner::run` (`runner.rs` lines 30-208).  `parseUri` is the
oracle for the hyper `Uri` parser (`none` = parse failure, `some hasHost` =
parsed, with `uri.host().is_some()`); `buildOk` abstracts the hyper header
validation.  `sched` gives each of the `concurrency` workers its stream
of attempt environments. -/
def httpRun (parseUri : List Nat → Option Bool) (buildOk : Bool)
    (cfg : HttpConfig) (sched : List (List HttpAttemptEnv)) :
    Except BenchmarkError BenchmarkReport :=
  match parseUri cfg.url with
  | none => .error (.Config (strCp "Invalid URL: " ++ cfg.url))
  | some hasHost =>
    let quota := requestsPerWorker cfg.requests cfg.concurrency
    let headerBytes := httpHeaderBytes cfg.headers
    let workers := (sched.take cfg.concurrency).map
      (httpWorker hasHost cfg.method buildOk cfg.timeout headerBytes quota)
    .ok (assembleReport cfg.url (strCp "HTTP") cfg.concurrency workers)

/-- `TcpConfig` of `config.rs`. -/
structure TcpConfig where
  address : List Nat
  data : Option (List Nat)
  expect : Option (List Nat)
  concurrency : Nat
  requests : Nat
  duration : Nat
  timeout : Nat
  keep_alive : Bool
deriving DecidableEq, Repr

/-- One TCP worker (`runner.rs` lines 271-306).  On success `bytes_sent`
grows by the configured data length (`if let Some(ref d) = data`).  An
attempt that never terminates (`sendTcp … = none`) leaves the worker
stuck mid-attempt: it contributes nothing further, not even a `completed`
increment for that attempt. -/
def tcpWorker (compile : List Nat → Option (List Nat → Bool))
    (data : Option (List Nat)) (expect : Option (List Nat)) (T : Nat) :
    Nat → List TcpAttemptEnv → WorkerStats
  | 0, _ => .empty
  | _ + 1, [] => .empty
  | fuel + 1, e :: rest =>
    match sendTcp compile data expect T e with
    | none => .empty
    | some r =>
      let tail := tcpWorker compile data expect T fuel rest
      match r with
      | .ok (resp, elapsed) =>
        { completed := tail.completed + 1
          successful := tail.successful + 1
          bytesSent := tail.bytesSent +
            (match data with | some d => d.length | none => 0)
          bytesReceived := tail.bytesReceived + resp.length
          samples := elapsed :: tail.samples }
      | .error _ =>
        { tail with completed := tail.completed + 1 }

/-- `TcpRunner::run` (`runner.rs` lines 220-386).  Note there is no
configuration validation step: the function always returns `Ok` with a
report; the expect pattern is compiled (and can fail) only inside
`send_tcp`, once per attempt. -/
def tcpRun (compile : List Nat → Option (List Nat → Bool))
    (cfg : TcpConfig) (sched : List (List TcpAttemptEnv)) :
    Except BenchmarkError BenchmarkReport :=
  let quota := requestsPerWorker cfg.requests cfg.concurrency
  let workers := (sched.take cfg.concurrency).map
    (tcpWorker compile cfg.data cfg.expect cfg.timeout quota)
  .ok (assembleReport cfg.address (strCp "TCP") cfg.concurrency workers)

/-! ## `config.rs` / `config_manager.rs` — persisted configuration -/

/-- `UdsConfig` of `config.rs`; the `PathBuf` is kept as text. -/
structure UdsConfig where
  path : List Nat
  data : Option (List Nat)
  expect : Option (List Nat)
  concurrency : Nat
  requests : Nat
  duration : Nat
  timeout : Nat
  keep_alive : Bool
deriving DecidableEq, Repr

/-- Rust `char::is_whitespace` (the Unicode `White_Space` property). -/
def isRustWhitespace (c : Nat) : Bool :=
  c = 0x09 || c = 0x0A || c = 0x0B || c = 0x0C || c = 0x0D || c = 0x20 ||
  c = 0x85 || c = 0xA0 || c = 0x1680 ||
  (0x2000 ≤ c && c ≤ 0x200A) ||
  c = 0x2028 || c = 0x2029 || c = 0x202F || c = 0x205F || c = 0x3000

/-- Rust `str::trim` on code points. -/
def trimCp (l : List Nat) : List Nat :=
  ((l.dropWhile isRustWhitespace).reverse.dropWhile isRustWhitespace).reverse

/-- `format!("{}:{}", k, v)` — the save form of one header pair. -/
def headerToSave (kv : List Nat × List Nat) : List Nat :=
  kv.1 ++ 58 :: kv.2

/-- The header-parsing closure shared by `HttpConfig::new` and
`HttpConfigSave::to_http_config`: `splitn(2, colon)`, keep only strings
that yield two parts, and `trim` both parts. -/
def parseHeader (h : List Nat) : Option (List Nat × List Nat) :=
  let pre := h.takeWhile (fun b => b != 58)
  if pre.length = h.length then none
  else some (trimCp pre, trimCp (h.drop (pre.length + 1)))

/-- `HttpConfigSave` of `config_manager.rs`: every numeric field is
optional, strings stay strings.  `duration` is seconds, `timeout`
milliseconds. -/
structure HttpConfigSave where
  url : List Nat
  method : Option (List Nat)
  headers : Option (List (List Nat))
  body : Option (List Nat)
  concurrency : Option Nat
  requests : Option Nat
  duration : Option Nat
  timeout : Option Nat
  keep_alive : Bool
deriving DecidableEq, Repr

/-- `TcpConfigSave` of `config_manager.rs`. -/
structure TcpConfigSave where
  address : List Nat
  data : Option (List Nat)
  expect : Option (List Nat)
  concurrency : Option Nat
  requests : Option Nat
  duration : Option Nat
  timeout : Option Nat
  keep_alive : Bool
deriving DecidableEq, Repr

/-- `UdsConfigSave` of `config_manager.rs`. -/
structure UdsConfigSave where
  path : List Nat
  data : Option (List Nat)
  expect : Option (List Nat)
  concurrency : Option Nat
  requests : Option Nat
  duration : Option Nat
  timeout : Option Nat
  keep_alive : Bool
deriving DecidableEq, Repr

/-- `From<&HttpConfig> for HttpConfigSave` (`config_manager.rs` lines
114-141): headers become `"k:v"` strings (`None` when empty), the body
becomes a string via `String::from_utf8_lossy`, `duration.as_secs()` and
`timeout.as_millis() as u64` are taken. -/
def httpConfigToSave (cfg : HttpConfig) : HttpConfigSave :=
  { url := cfg.url
    method := some cfg.method
    headers :=
      if cfg.headers.isEmpty then none
      else some (cfg.headers.map headerToSave)
    body := cfg.body.map utf8Lossy
    concurrency := some cfg.concurrency
    requests := some cfg.requests
    duration := some (cfg.duration / 1000000000)
    timeout := some (cfg.timeout / 1000000 % U64MOD)
    keep_alive := cfg.keep_alive }

/-- `HttpConfigSave::to_http_config` (`config_manager.rs` lines 181-214):
headers are re-parsed with trimming, the body string is taken as bytes,
absent numeric fields fall back to the CLI defaults. -/
def toHttpConfig (save : HttpConfigSave) : HttpConfig :=
  { url := save.url
    method := save.method.getD (strCp "GET")
    headers :=
      match save.headers with
      | some hs => hs.filterMap parseHeader
      | none => []
    body := save.body.map utf8Encode
    concurrency := save.concurrency.getD 1
    requests := save.requests.getD 100
    duration := save.duration.getD 10 * 1000000000
    timeout := save.timeout.getD 30000 * 1000000
    keep_alive := save.keep_alive }

/-- `From<&TcpConfig> for TcpConfigSave` (`config_manager.rs` lines
143-160). -/
def tcpConfigToSave (cfg : TcpConfig) : TcpConfigSave :=
  { address := cfg.address
    data := cfg.data.map utf8Lossy
    expect := cfg.expect
    concurrency := some cfg.concurrency
    requests := some cfg.requests
    duration := some (cfg.duration / 1000000000)
    timeout := some (cfg.timeout / 1000000 % U64MOD)
    keep_alive := cfg.keep_alive }

/-- `TcpConfigSave::to_tcp_config` (`config_manager.rs` lines 216-233). -/
def toTcpConfig (save : TcpConfigSave) : TcpConfig :=
  { address := save.address
    data := save.data.map utf8Encode
    expect := save.expect
    concurrency := save.concurrency.getD 1
    requests := save.requests.getD 100
    duration := save.duration.getD 10 * 1000000000
    timeout := save.timeout.getD 30000 * 1000000
    keep_alive := save.keep_alive }

/-- `From<&UdsConfig> for UdsConfigSave` (`config_manager.rs` lines
162-179); the path is `to_string_lossy`, the identity on text paths. -/
def udsConfigToSave (cfg : UdsConfig) : UdsConfigSave :=
  { path := cfg.path
    data := cfg.data.map utf8Lossy
    expect := cfg.expect
    concurrency := some cfg.concurrency
    requests := some cfg.requests
    duration := some (cfg.duration / 1000000000)
    timeout := some (cfg.timeout / 1000000 % U64MOD)
    keep_alive := cfg.keep_alive }

/-- `UdsConfigSave::to_uds_config` (`config_manager.rs` lines 235-252). -/
def toUdsConfig (save : UdsConfigSave) : UdsConfig :=
  { path := save.path
    data := save.data.map utf8Encode
    expect := save.expect
    concurrency := save.concurrency.getD 1
    requests := save.requests.getD 100
    duration := save.duration.getD 10 * 1000000000
    timeout := save.timeout.getD 30000 * 1000000
    keep_alive := save.keep_alive }

/-! ## Auxiliary observations used by the theorems -/

/-- Wall-clock duration of one read event. -/
def ReadEv.dur : ReadEv → Nat
  | .chunk d _ => d
  | .eof d => d
  | .ioErr d => d

/-- The time at which the expect loop produced its outcome (0 for a loop
that never terminates). -/
def ExpectOut.time : ExpectOut → Nat
  | .found _ t => t
  | .notFound _ t => t
  | .readErr t => t
  | .blocked => 0

/-- No EOF and no I/O error completes within the budget `T` when the
phase entered at time `t`: the no-pattern read loop can then only be
ended by the timeout. -/
def noStopWithin (T : Nat) : List ReadEv → Nat → Bool
  | [], _ => true
  | .chunk d _ :: rest, t =>
    if T < t + d then true else noStopWithin T rest (t + d)
  | .eof d :: _, t => T < t + d
  | .ioErr d :: _, t => T < t + d

/-- The successive accumulated buffers the expect loop would test a
pattern against, one per data chunk. -/
def chunkBufs (buf : List Nat) : List ReadEv → List (List Nat)
  | [] => []
  | .chunk _ bytes :: rest => (buf ++ bytes) :: chunkBufs (buf ++ bytes) rest
  | .eof _ :: _ => []
  | .ioErr _ :: _ => []

/-- The event stream reaches a clean EOF before any I/O error. -/
def eofBeforeErr : List ReadEv → Bool
  | [] => false
  | .chunk _ _ :: rest => eofBeforeErr rest
  | .eof _ :: _ => true
  | .ioErr _ :: _ => false

/-- Contiguous-subsequence test, used to instantiate the abstract regex
matcher with a concrete "contains this literal" pattern. -/
def containsSlice (pat : List Nat) : List Nat → Bool
  | [] => pat.isEmpty
  | l@(_ :: rest) => pat.isPrefixOf l || containsSlice pat rest

theorem reduceStats_perm (l₁ l₂ : List Nat) (h : l₁.Perm l₂) :
    reduceStats l₁ = reduceStats l₂ := by
  have hs : l₁.insertionSort (· ≤ ·) = l₂.insertionSort (· ≤ ·) :=
    List.eq_of_perm_of_sorted
      (((List.perm_insertionSort _ l₁).trans h).trans
        (List.perm_insertionSort _ l₂).symm)
      (List.sorted_insertionSort _ l₁) (List.sorted_insertionSort _ l₂)
  simp [reduceStats, hs]

/-- C2: the percentile reducer sorts ascending and returns
`samples[min(floor(N*X), N-1)]` for X in {0.50, 0.90, 0.95, 0.99} with no
interpolation; every field is zero on the empty vector; for the samples
1..10 ms it yields p50 = 6 ms, p90 = p95 = p99 = 10 ms, min = 1 ms,
max = 10 ms, avg = 5.5 ms; and the reducer is order-independent. -/
theorem percentile_floor_rule :
    (∀ l : List Nat, l ≠ [] →
      (reduceStats l).p50 =
        (l.insertionSort (· ≤ ·)).getD
          (min (l.length * 50 / 100) (l.length - 1)) 0 ∧
      (reduceStats l).p90 =
        (l.insertionSort (· ≤ ·)).getD
          (min (l.length * 90 / 100) (l.length - 1)) 0 ∧
      (reduceStats l).p95 =
        (l.insertionSort (· ≤ ·)).getD
          (min (l.length * 95 / 100) (l.length - 1)) 0 ∧
      (reduceStats l).p99 =
        (l.insertionSort (· ≤ ·)).getD
          (min (l.length * 99 / 100) (l.length - 1)) 0) ∧
    reduceStats [] = ⟨0, 0, 0, 0, 0, 0, 0⟩ ∧
    reduceStats [1000000, 2000000, 3000000, 4000000, 5000000, 6000000,
                 7000000, 8000000, 9000000, 10000000] =
      ⟨5500000, 1000000, 10000000, 6000000, 10000000, 10000000,
       10000000⟩ ∧
    (∀ l₁ l₂ : List Nat, l₁.Perm l₂ → reduceStats l₁ = reduceStats l₂) := by
  refine ⟨fun l hl => ?_, by decide, by decide, reduceStats_perm⟩
  have hperm := List.perm_insertionSort (α := Nat) (· ≤ ·) l
  have hne : l.insertionSort (· ≤ ·) ≠ [] := by
    intro h
    exact hl (List.Perm.eq_nil (h ▸ hperm).symm)
  have hlen : (l.insertionSort (· ≤ ·)).length = l.length :=
    hperm.length_eq
  have hemp : (l.insertionSort (· ≤ ·)).isEmpty = false := by
    simpa [List.isEmpty_iff] using hne
  refine ⟨?_, ?_, ?_, ?_⟩ <;>
    simp [reduceStats, percentile, hemp, hlen]

theorem httpWorker_completed_le (hasHost : Bool) (method : List Nat)
    (buildOk : Bool) (T hb : Nat) :
    ∀ (fuel : Nat) (envs : List HttpAttemptEnv),
      (httpWorker hasHost method buildOk T hb fuel envs).completed ≤ fuel := by
  intro fuel
  induction fuel with
  | zero => intro envs; simp [httpWorker, WorkerStats.empty]
  | succ n ih =>
    intro envs
    cases envs with
    | nil => simp [httpWorker, WorkerStats.empty]
    | cons e rest =>
      simp only [httpWorker]
      cases sendRequest hasHost method buildOk T e with
      | ok v =>
        obtain ⟨st, rb, el⟩ := v
        simpa using Nat.succ_le_succ (ih rest)
      | error err => simpa using Nat.succ_le_succ (ih rest)

theorem foldl_add_eq_sum (f : WorkerStats → Nat) :
    ∀ (ws : List WorkerStats) (n : Nat),
      ws.foldl (fun acc w => acc + f w) n = n + (ws.map f).sum := by
  intro ws
  induction ws with
  | nil => simp
  | cons w rest ih => intro n; simp [ih, Nat.add_assoc]

theorem sumCounters_le_mul (f : WorkerStats → Nat) (ws : List WorkerStats)
    (q : Nat) (h : ∀ w ∈ ws, f w ≤ q) :
    sumCounters f ws ≤ ws.length * q := by
  have h1 : sumCounters f ws ≤ (ws.map f).sum := by
    simpa [sumCounters, foldl_add_eq_sum] using
      Nat.mod_le ((ws.map f).sum) U64MOD
  have h2 : (ws.map f).sum ≤ (ws.map f).length * q := by
    refine List.sum_le_card_nsmul _ q ?_ |>.trans ?_
    · intro x hx
      obtain ⟨w, hw, rfl⟩ := List.mem_map.mp hx
      exact h w hw
    · simp [smul_eq_mul]
  simpa using h1.trans h2

/-- C3 (amended): when `N + C - 1` does not overflow `usize`, the
per-worker quota is exactly the ceiling `(N + C - 1) / C` and `C` times
it covers `N`; and in every case (overflow included) the completed count
of an HTTP run with `N > 0`, `C >= 1` is at most `N + (C - 1)`. -/
theorem worker_quota_and_completed_cap :
    (∀ N C : Nat, 0 < N → 0 < C → N + C - 1 < U64MOD →
      requestsPerWorker N C = (N + C - 1) / C ∧
      N ≤ C * ((N + C - 1) / C)) ∧
    (∀ (parseUri : List Nat → Option Bool) (buildOk : Bool)
       (cfg : HttpConfig) (sched : List (List HttpAttemptEnv))
       (rep : BenchmarkReport),
      0 < cfg.requests → 0 < cfg.concurrency →
      httpRun parseUri buildOk cfg sched = .ok rep →
      rep.totalRequests ≤ cfg.requests + (cfg.concurrency - 1)) := by
  constructor
  · intro N C hN hC hlt
    constructor
    · simp [requestsPerWorker, hN, Nat.mod_eq_of_lt hlt]
    · have h1 := Nat.div_add_mod (N + C - 1) C
      have h2 : (N + C - 1) % C < C := Nat.mod_lt _ hC
      generalize ht : C * ((N + C - 1) / C) = t at h1 ⊢
      omega
  · intro parseUri buildOk cfg sched rep hN hC hrun
    unfold httpRun at hrun
    cases hparse : parseUri cfg.url with
    | none => rw [hparse] at hrun; exact absurd hrun (by simp)
    | some hasHost =>
      rw [hparse] at hrun
      simp only [Except.ok.injEq] at hrun
      subst hrun
      set quota := requestsPerWorker cfg.requests cfg.concurrency with hq
      set workers := (sched.take cfg.concurrency).map
        (httpWorker hasHost cfg.method buildOk cfg.timeout
          (httpHeaderBytes cfg.headers) quota) with hw
      have hbound : ∀ w ∈ workers, w.completed ≤ quota := by
        intro w hmem
        rw [hw] at hmem
        obtain ⟨envs, _, rfl⟩ := List.mem_map.mp hmem
        exact httpWorker_completed_le _ _ _ _ _ _ _
      have hlen : workers.length ≤ cfg.concurrency := by
        simp [hw, List.length_take]
      have h1 : sumCounters (·.completed) workers ≤ workers.length * quota :=
        sumCounters_le_mul _ _ _ hbound
      have h2 : workers.length * quota ≤ cfg.concurrency * quota :=
        Nat.mul_le_mul_right _ hlen
      have h3 : cfg.concurrency * quota ≤
          cfg.requests + cfg.concurrency - 1 := by
        have hqle : quota ≤ (cfg.requests + cfg.concurrency - 1) /
            cfg.concurrency := by
          rw [hq]
          simp only [requestsPerWorker, hN, if_pos]
          exact Nat.div_le_div_right (Nat.mod_le _ _)
        calc cfg.concurrency * quota
            ≤ cfg.concurrency *
              ((cfg.requests + cfg.concurrency - 1) / cfg.concurrency) :=
              Nat.mul_le_mul_left _ hqle
          _ ≤ cfg.requests + cfg.concurrency - 1 := by
              rw [Nat.mul_comm]
              exact Nat.div_mul_le_self _ _
      have h4 : (assembleReport cfg.url (strCp "HTTP") cfg.concurrency
          workers).totalRequests = sumCounters (·.completed) workers := rfl
      rw [h4]
      have h5 := (h1.trans h2).trans h3
      omega

/-- C3 counterexample: at `requests = usize::MAX`, `concurrency = 2` the
wrapping computation `(N + C - 1) / C` yields quota 0, not
`ceil(N / C) = 2^63`, so the per-worker quota is not `ceil(N / C)` for
every run with `N > 0`, `C >= 1`. -/
theorem requests_per_worker_overflow_cex :
    requestsPerWorker (2 ^ 64 - 1) 2 = 0 ∧
    (2 ^ 64 - 1 + 2 - 1) / 2 = 2 ^ 63 ∧
    requestsPerWorker (2 ^ 64 - 1) 2 ≠ (2 ^ 64 - 1 + 2 - 1) / 2 := by
  refine ⟨?_, by norm_num, ?_⟩ <;> norm_num [requestsPerWorker, U64MOD]

/-- C3 witness: quota and completed-count cap evaluated at `N = 5`,
`C = 2` and a concrete (empty-schedule) run. -/
theorem worker_quota_and_completed_cap_witness :
    (requestsPerWorker 5 2 = (5 + 2 - 1) / 2 ∧ 5 ≤ 2 * ((5 + 2 - 1) / 2)) ∧
    (assembleReport (strCp "u") (strCp "HTTP") 2 []).totalRequests ≤
      5 + (2 - 1) :=
  ⟨worker_quota_and_completed_cap.1 5 2 (by decide) (by decide) (by decide),
   worker_quota_and_completed_cap.2 (fun _ => some true) true
     ⟨strCp "u", strCp "GET", [], none, 2, 5, 0, 0, false⟩ []
     (assembleReport (strCp "u") (strCp "HTTP") 2 [])
     (by decide) (by decide) rfl⟩

/-- C1 counterexample: with `T = 10` an attempt whose connect, send and
read phases each take 6 (total 18 > T) succeeds in `sendRequest`, because
each `tokio::time::timeout` call receives a fresh full `T`; the
spec-described remaining-budget discipline (`sendRequestSpecBudget`)
rejects the same attempt with `RequestTimeout`.  The claim that the
phases together are granted no more than `T` is therefore false. -/
theorem http_fresh_timeout_per_phase_cex :
    sendRequest true (strCp "GET") true 10
      ⟨6, true, 0, true, 6, true, 6, true, 200, []⟩ = .ok (200, [], 18) ∧
    sendRequestSpecBudget true (strCp "GET") true 10
      ⟨6, true, 0, true, 6, true, 6, true, 200, []⟩ =
      .error (.RequestTimeout 10) ∧
    10 < 18 :=
  ⟨rfl, rfl, by decide⟩

/-- C1 (amended): each phase of a successful HTTP attempt — connect,
send, response read — is separately bounded by a fresh timeout of `T`,
so the elapsed time is the sum of the phase durations and is bounded by
`3T` plus the (un-raced) handshake duration, not by `T`. -/
theorem http_phase_budget_bound (hasHost : Bool) (method : List Nat)
    (buildOk : Bool) (T : Nat) (env : HttpAttemptEnv) (st : Nat)
    (body : List Nat) (elapsed : Nat)
    (h : sendRequest hasHost method buildOk T env = .ok (st, body, elapsed)) :
    env.connectDur ≤ T ∧ env.sendDur ≤ T ∧ env.readDur ≤ T ∧
    elapsed = env.connectDur + env.handshakeDur + env.sendDur +
      env.readDur ∧
    elapsed ≤ 3 * T + env.handshakeDur := by
  unfold sendRequest at h
  repeat' split at h
  all_goals
    first
      | exact Except.noConfusion h
      | · simp only [Except.ok.injEq, Prod.mk.injEq] at h
          obtain ⟨-, -, helapsed⟩ := h
          omega

theorem noExpectLoop_time_le (T : Nat) :
    ∀ (evs : List ReadEv) (t : Nat) (buf buf2 : List Nat) (t2 : Nat),
      noExpectLoop T evs t buf = .ok (buf2, t2) → t2 ≤ T := by
  intro evs
  induction evs with
  | nil =>
    intro t buf buf2 t2 h
    simp only [noExpectLoop, Except.ok.injEq, Prod.mk.injEq] at h
    omega
  | cons ev rest ih =>
    intro t buf buf2 t2 h
    cases ev with
    | chunk d bytes =>
      simp only [noExpectLoop] at h
      split at h
      · simp only [Except.ok.injEq, Prod.mk.injEq] at h; omega
      · exact ih _ _ _ _ h
    | eof d =>
      simp only [noExpectLoop] at h
      split at h <;>
        (simp only [Except.ok.injEq, Prod.mk.injEq] at h; omega)
    | ioErr d =>
      simp only [noExpectLoop] at h
      split at h
      · simp only [Except.ok.injEq, Prod.mk.injEq] at h; omega
      · exact Except.noConfusion h

theorem expectLoop_time_le (T : Nat) (m : List Nat → Bool) (δ : Nat) :
    ∀ (evs : List ReadEv) (t : Nat) (buf : List Nat),
      (∀ ev ∈ evs, ReadEv.dur ev ≤ δ) → t ≤ T + δ →
      (expectLoop T m evs t buf).time ≤ T + δ := by
  intro evs
  induction evs with
  | nil =>
    intro t buf _ ht
    simp only [expectLoop]
    split
    · simpa [ExpectOut.time] using ht
    · simp [ExpectOut.time]
  | cons ev rest ih =>
    intro t buf hδ ht
    have hd : ReadEv.dur ev ≤ δ := hδ ev (List.mem_cons_self _ _)
    have hrest : ∀ e ∈ rest, ReadEv.dur e ≤ δ :=
      fun e he => hδ e (List.mem_cons_of_mem _ he)
    cases ev with
    | chunk d bytes =>
      simp only [expectLoop]
      split
      · simpa [ExpectOut.time] using ht
      · rename_i hTt
        simp only [ReadEv.dur] at hd
        split
        · simp only [ExpectOut.time]; omega
        · exact ih _ _ hrest (by omega)
    | eof d =>
      simp only [expectLoop]
      simp only [ReadEv.dur] at hd
      split
      · simpa [ExpectOut.time] using ht
      · rename_i hTt
        simp only [ExpectOut.time]; omega
    | ioErr d =>
      simp only [expectLoop]
      simp only [ReadEv.dur] at hd
      split
      · simpa [ExpectOut.time] using ht
      · rename_i hTt
        simp only [ExpectOut.time]; omega

/-- C4 counterexample: in the expect-pattern branch a read the peer
never completes is not raced against the deadline: with a silent peer
(`reads = []`) the attempt never terminates (`none`), instead of failing
with a timeout variant at the deadline as the claim requires. -/
theorem tcp_expect_silent_peer_blocks_cex :
    sendTcp (fun _ => some (fun _ => false)) none (some (strCp "a")) 1000
      ⟨0, true, 0, true, []⟩ = none := rfl

/-- C4 (amended): connect and write are each raced against a fresh
timeout `T` (`ConnectionTimeout` / `RequestTimeout` on expiry), and the
no-pattern read phase always ends by time `T`; but in the expect-pattern
branch the deadline is consulted only between reads, so the read phase is
bounded only by `T` plus the duration of one read (and not at all when a
read never returns, as the counterexample shows). -/
theorem tcp_io_deadline_discipline :
    (∀ (compile : List Nat → Option (List Nat → Bool))
       (data expect : Option (List Nat)) (T : Nat) (env : TcpAttemptEnv),
      T < env.connectDur →
      sendTcp compile data expect T env =
        some (.error (.ConnectionTimeout T))) ∧
    (∀ (compile : List Nat → Option (List Nat → Bool))
       (expect : Option (List Nat)) (T : Nat) (env : TcpAttemptEnv)
       (bs : List Nat),
      env.connectDur ≤ T → env.connectOk = true → bs ≠ [] →
      T < env.writeDur →
      sendTcp compile (some bs) expect T env =
        some (.error (.RequestTimeout T))) ∧
    (∀ (T : Nat) (evs : List ReadEv) (t : Nat) (buf buf2 : List Nat)
       (t2 : Nat),
      noExpectLoop T evs t buf = .ok (buf2, t2) → t2 ≤ T) ∧
    (∀ (T : Nat) (m : List Nat → Bool) (δ : Nat) (evs : List ReadEv)
       (t : Nat) (buf : List Nat),
      (∀ ev ∈ evs, ReadEv.dur ev ≤ δ) → t ≤ T + δ →
      (expectLoop T m evs t buf).time ≤ T + δ) := by
  refine ⟨?_, ?_, fun T => noExpectLoop_time_le T,
    fun T m δ => expectLoop_time_le T m δ⟩
  · intro compile data expect T env h
    simp [sendTcp, h]
  · intro compile expect T env bs hcd hok hbs hwd
    have hbe : bs.isEmpty = false := by
      simpa [List.isEmpty_iff] using hbs
    simp [sendTcp, writeStep, Nat.not_lt.mpr hcd, hok, hbe, hwd]

/-- C4 witness: the four amended clauses at concrete attempts. -/
theorem tcp_io_deadline_discipline_witness :
    sendTcp (fun _ => none) none none 1 ⟨2, true, 0, true, []⟩ =
      some (.error (.ConnectionTimeout 1)) ∧
    sendTcp (fun _ => none) (some [1]) none 10 ⟨0, true, 20, true, []⟩ =
      some (.error (.RequestTimeout 10)) ∧
    (5 : Nat) ≤ 5 ∧
    (expectLoop 5 (fun _ => false) [] 0 []).time ≤ 5 + 0 :=
  ⟨tcp_io_deadline_discipline.1 _ none none 1 _ (by decide),
   tcp_io_deadline_discipline.2.1 _ none 10 _ [1] (by decide) rfl
     (by decide) (by decide),
   tcp_io_deadline_discipline.2.2.1 5 [] 0 [] [] 5 rfl,
   tcp_io_deadline_discipline.2.2.2 5 (fun _ => false) 0 [] 0 []
     (by simp) (by decide)⟩

theorem sendTcp_invalid_regex_errors
    (compile : List Nat → Option (List Nat → Bool)) (pat : List Nat)
    (hc : compile pat = none) (data : Option (List Nat)) (T : Nat)
    (env : TcpAttemptEnv) :
    ∃ e, sendTcp compile data (some pat) T env = some (.error e) := by
  unfold sendTcp
  split_ifs with h1 h2
  · exact ⟨_, rfl⟩
  · exact ⟨_, rfl⟩
  · cases hw : writeStep data T env with
    | some e => exact ⟨_, rfl⟩
    | none =>
      exact ⟨.Parse (strCp "Invalid regex pattern: " ++ pat), by simp [hc]⟩

theorem tcpWorker_invalid_regex
    (compile : List Nat → Option (List Nat → Bool)) (pat : List Nat)
    (hc : compile pat = none) (data : Option (List Nat)) (T : Nat) :
    ∀ (fuel : Nat) (envs : List TcpAttemptEnv),
      (tcpWorker compile data (some pat) T fuel envs).successful = 0 := by
  intro fuel
  induction fuel with
  | zero => intro envs; simp [tcpWorker, WorkerStats.empty]
  | succ n ih =>
    intro envs
    cases envs with
    | nil => simp [tcpWorker, WorkerStats.empty]
    | cons e rest =>
      obtain ⟨err, herr⟩ :=
        sendTcp_invalid_regex_errors compile pat hc data T e
      simp [tcpWorker, herr, ih rest]

theorem tcpRun_invalid_regex
    (compile : List Nat → Option (List Nat → Bool)) (cfg : TcpConfig)
    (sched : List (List TcpAttemptEnv)) (pat : List Nat)
    (hexp : cfg.expect = some pat) (hc : compile pat = none) :
    ∃ rep, tcpRun compile cfg sched = .ok rep ∧
      rep.successfulRequests = 0 ∧
      rep.failedRequests = rep.totalRequests := by
  have hsum : sumCounters (·.successful)
      ((sched.take cfg.concurrency).map
        (tcpWorker compile cfg.data cfg.expect cfg.timeout
          (requestsPerWorker cfg.requests cfg.concurrency))) = 0 := by
    rw [sumCounters, foldl_add_eq_sum]
    have hz : (((sched.take cfg.concurrency).map
        (tcpWorker compile cfg.data cfg.expect cfg.timeout
          (requestsPerWorker cfg.requests cfg.concurrency))).map
        (·.successful)).sum = 0 := by
      apply List.sum_eq_zero
      intro x hx
      obtain ⟨w, hw, rfl⟩ := List.mem_map.mp hx
      obtain ⟨envs, _, rfl⟩ := List.mem_map.mp hw
      rw [hexp]
      exact tcpWorker_invalid_regex compile pat hc cfg.data cfg.timeout _ _
    rw [Nat.zero_add, hz, Nat.zero_mod]
  refine ⟨_, rfl, ?_, ?_⟩
  · exact hsum
  · show sumCounters (·.completed) _ - sumCounters (·.successful) _ = _
    rw [hsum]
    rfl

/-- C5 (amended): a bad URL makes `HttpRunner::run` return the `Config`
error before any work, for every schedule; but a malformed expect regex
is compiled only inside `send_tcp`, once per attempt, so the TCP run
completes with `Ok` and the regex failures are absorbed into the
per-attempt failure count (successful = 0, failed = completed). -/
theorem config_error_propagation :
    (∀ (parseUri : List Nat → Option Bool) (buildOk : Bool)
       (cfg : HttpConfig) (sched : List (List HttpAttemptEnv)),
      parseUri cfg.url = none →
      httpRun parseUri buildOk cfg sched =
        .error (.Config (strCp "Invalid URL: " ++ cfg.url))) ∧
    (∀ (compile : List Nat → Option (List Nat → Bool)) (cfg : TcpConfig)
       (sched : List (List TcpAttemptEnv)) (pat : List Nat),
      cfg.expect = some pat → compile pat = none →
      ∃ rep, tcpRun compile cfg sched = .ok rep ∧
        rep.successfulRequests = 0 ∧
        rep.failedRequests = rep.totalRequests) := by
  constructor
  · intro parseUri buildOk cfg sched h
    simp [httpRun, h]
  · intro compile cfg sched pat hexp hc
    exact tcpRun_invalid_regex compile cfg sched pat hexp hc

/-- C6: with a compiled expect pattern and connect/write inside budget,
an expect loop that ends without a match (EOF reached first, or the
deadline expired first) makes `send_tcp` fail with `ResponseValidation`
carrying exactly the source message built by `expectMsgCp` (Expected
pattern <pattern> not found in response, pattern quoted), and a loop that
finds a match makes it succeed with the accumulated bytes and the
elapsed time. -/
theorem tcp_expect_validation_outcomes
    (compile : List Nat → Option (List Nat → Bool)) (pat : List Nat)
    (m : List Nat → Bool) (data : Option (List Nat)) (T : Nat)
    (env : TcpAttemptEnv) (hc : compile pat = some m)
    (hcd : env.connectDur ≤ T) (hok : env.connectOk = true)
    (hw : writeStep data T env = none) :
    (∀ buf t, expectLoop T m env.reads 0 [] = .notFound buf t →
      sendTcp compile data (some pat) T env =
        some (.error (.ResponseValidation (expectMsgCp pat)))) ∧
    (∀ buf t, expectLoop T m env.reads 0 [] = .found buf t →
      sendTcp compile data (some pat) T env =
        some (.ok (buf, env.connectDur + writePhaseDur data env + t))) := by
  constructor <;> intro buf t hloop <;>
    simp [sendTcp, Nat.not_lt.mpr hcd, hok, hw, hc, hloop]

/-- C6 witness: the EOF-miss and first-match outcomes at concrete
attempts with the literal pattern `hi`. -/
theorem tcp_expect_validation_outcomes_witness :
    sendTcp (fun _ => some (containsSlice (strCp "hi"))) none
      (some (strCp "hi")) 10 ⟨0, true, 0, true, [.eof 0]⟩ =
      some (.error (.ResponseValidation (expectMsgCp (strCp "hi")))) ∧
    sendTcp (fun _ => some (containsSlice (strCp "hi"))) none
      (some (strCp "hi")) 10 ⟨0, true, 0, true, [.chunk 1 [104, 105]]⟩ =
      some (.ok ([104, 105], 0 + 0 + 1)) := by
  constructor
  · exact (tcp_expect_validation_outcomes
      (fun _ => some (containsSlice (strCp "hi"))) (strCp "hi")
      (containsSlice (strCp "hi")) none 10
      ⟨0, true, 0, true, [.eof 0]⟩ rfl (by decide) rfl rfl).1 [] 0 rfl
  · have h := (tcp_expect_validation_outcomes
      (fun _ => some (containsSlice (strCp "hi"))) (strCp "hi")
      (containsSlice (strCp "hi")) none 10
      ⟨0, true, 0, true, [.chunk 1 [104, 105]]⟩ rfl (by decide) rfl
      rfl).2 [104, 105] 1 rfl
    simpa [writePhaseDur] using h

theorem noStopWithin_loop (T : Nat) :
    ∀ (evs : List ReadEv) (t : Nat) (buf : List Nat),
      noStopWithin T evs t = true →
      ∃ buf2, noExpectLoop T evs t buf = .ok (buf2, T) := by
  intro evs
  induction evs with
  | nil => intro t buf _; exact ⟨buf, rfl⟩
  | cons ev rest ih =>
    intro t buf hns
    cases ev with
    | chunk d bytes =>
      simp only [noStopWithin] at hns
      split at hns
      · exact ⟨buf, by simp only [noExpectLoop]; rw [if_pos (by assumption)]⟩
      · obtain ⟨b2, h⟩ := ih (t + d) (buf ++ bytes) hns
        exact ⟨b2, by
          simp only [noExpectLoop]; rw [if_neg (by assumption)]; exact h⟩
    | eof d =>
      simp only [noStopWithin, decide_eq_true_eq] at hns
      exact ⟨buf, by simp only [noExpectLoop]; rw [if_pos hns]⟩
    | ioErr d =>
      simp only [noStopWithin, decide_eq_true_eq] at hns
      exact ⟨buf, by simp only [noExpectLoop]; rw [if_pos hns]⟩

/-- C7: with no expect pattern the adapter reads until EOF or until `T`
elapses, whichever comes first; expiry of `T` is a normal termination
returning `Ok` with the bytes accumulated so far at phase time `T`, the
read phase never exceeds `T`, and the only possible error from the read
phase is `Io`. -/
theorem tcp_no_expect_timeout_normal
    (compile : List Nat → Option (List Nat → Bool))
    (data : Option (List Nat)) (T : Nat) (env : TcpAttemptEnv)
    (hcd : env.connectDur ≤ T) (hok : env.connectOk = true)
    (hw : writeStep data T env = none) :
    (noStopWithin T env.reads 0 = true →
      ∃ buf, sendTcp compile data none T env =
        some (.ok (buf, env.connectDur + writePhaseDur data env + T))) ∧
    (∀ buf t, noExpectLoop T env.reads 0 [] = .ok (buf, t) →
      sendTcp compile data none T env =
        some (.ok (buf, env.connectDur + writePhaseDur data env + t)) ∧
      t ≤ T) ∧
    (∀ e, sendTcp compile data none T env = some (.error e) →
      e = .Io) := by
  refine ⟨?_, ?_, ?_⟩
  · intro hns
    obtain ⟨buf2, h⟩ := noStopWithin_loop T env.reads 0 [] hns
    exact ⟨buf2, by simp [sendTcp, Nat.not_lt.mpr hcd, hok, hw, h]⟩
  · intro buf t h
    exact ⟨by simp [sendTcp, Nat.not_lt.mpr hcd, hok, hw, h],
      noExpectLoop_time_le T env.reads 0 [] buf t h⟩
  · intro e h
    cases hnl : noExpectLoop T env.reads 0 [] with
    | ok p =>
      obtain ⟨buf, t⟩ := p
      simp [sendTcp, Nat.not_lt.mpr hcd, hok, hw, hnl] at h
    | error u =>
      simp [sendTcp, Nat.not_lt.mpr hcd, hok, hw, hnl] at h
      exact h.symm

/-- C7 witness: timeout-expiry, EOF and I/O-error read phases at
concrete attempts with `T = 3`. -/
theorem tcp_no_expect_timeout_normal_witness :
    (∃ buf, sendTcp (fun _ => none) none none 3
      ⟨0, true, 0, true, [.chunk 5 [1, 2]]⟩ =
        some (.ok (buf, 0 + 0 + 3))) ∧
    (sendTcp (fun _ => none) none none 3 ⟨0, true, 0, true, [.eof 1]⟩ =
        some (.ok ([], 0 + 0 + 1)) ∧ 1 ≤ 3) ∧
    (BenchmarkError.Io = BenchmarkError.Io) := by
  refine ⟨?_, ?_, ?_⟩
  · have h := (tcp_no_expect_timeout_normal (fun _ => none) none 3
      ⟨0, true, 0, true, [.chunk 5 [1, 2]]⟩ (by decide) rfl rfl).1 rfl
    simpa [writePhaseDur] using h
  · have h := (tcp_no_expect_timeout_normal (fun _ => none) none 3
      ⟨0, true, 0, true, [.eof 1]⟩ (by decide) rfl rfl).2.1 [] 1 rfl
    simpa [writePhaseDur] using h
  · exact (tcp_no_expect_timeout_normal (fun _ => none) none 3
      ⟨0, true, 0, true, [.ioErr 1]⟩ (by decide) rfl rfl).2.2 .Io rfl

/-- C8: the `bytes_sent` increment of a successful HTTP attempt is the
*response* body length plus the header byte count (`runner.rs` line 109
reads the `body` bound by the `Ok((status, body, elapsed))` pattern,
which shadows the request body), so two attempts with the same request
but different responses move `bytes_sent` by 13 and by 5 — contradicting
the claim that the increment is request-derived and
response-independent. -/
theorem http_bytes_sent_counts_response_body :
    (httpWorker true (strCp "GET") true 1000 0 1
      [⟨0, true, 0, true, 0, true, 0, true, 200,
        [1, 2, 3, 4, 5, 6, 7, 8, 9, 10, 11, 12, 13]⟩]).bytesSent = 13 ∧
    (httpWorker true (strCp "GET") true 1000 0 1
      [⟨0, true, 0, true, 0, true, 0, true, 200,
        [1, 2, 3, 4, 5]⟩]).bytesSent = 5 :=
  ⟨rfl, rfl⟩

/-- C1 witness: the amended bound at a concrete successful attempt with
phase durations 2, 3, 4 and handshake 1 under `T = 10`. -/
theorem http_phase_budget_bound_witness :
    (2 : Nat) ≤ 10 ∧ (3 : Nat) ≤ 10 ∧ (4 : Nat) ≤ 10 ∧
    (10 : Nat) = 2 + 1 + 3 + 4 ∧ (10 : Nat) ≤ 3 * 10 + 1 := by
  have h := http_phase_budget_bound true (strCp "GET") true 10
    ⟨2, true, 1, true, 3, true, 4, true, 200, [7]⟩ 200 [7] 10 rfl
  exact ⟨h.1, h.2.1, h.2.2.1, by omega, h.2.2.2.2⟩

theorem utf8DecodeStep_encode (l : List Nat) (c k : Nat)
    (h : utf8DecodeStep l = some (c, k)) :
    utf8EncodeChar c = l.take k ∧ 1 ≤ k ∧ k ≤ l.length := by
  match l with
  | [] => simp [utf8DecodeStep] at h
  | b0 :: rest =>
    by_cases h1 : b0 < 0x80
    · simp only [utf8DecodeStep, if_pos h1, Option.some.injEq,
        Prod.mk.injEq] at h
      obtain ⟨rfl, rfl⟩ := h
      refine ⟨by simp [utf8EncodeChar, h1], by omega, by simp⟩
    · by_cases h2 : (decide (0xC2 ≤ b0) && decide (b0 ≤ 0xDF)) = true
      · -- two-byte lead
        match rest with
        | [] => simp [utf8DecodeStep, h1, h2] at h
        | b1 :: rest2 =>
          by_cases hc : isCont b1 = true
          · simp only [utf8DecodeStep, if_neg h1, h2, if_pos, hc, if_true,
              Option.some.injEq, Prod.mk.injEq] at h
            obtain ⟨rfl, rfl⟩ := h
            simp only [Bool.and_eq_true, decide_eq_true_eq] at h2
            simp only [isCont, Bool.and_eq_true, decide_eq_true_eq] at hc
            refine ⟨?_, by omega, by simp⟩
            simp only [utf8EncodeChar]
            rw [if_neg (by omega), if_pos (by omega)]
            simp only [List.take, List.cons.injEq]
            exact ⟨by omega, by omega, trivial⟩
          · simp [utf8DecodeStep, h1, h2, hc] at h
      · by_cases h3 : (decide (0xE0 ≤ b0) && decide (b0 ≤ 0xEF)) = true
        · -- three-byte lead
          match rest with
          | [] => simp [utf8DecodeStep, h1, h2, h3] at h
          | [b1] => simp [utf8DecodeStep, h1, h2, h3] at h
          | b1 :: b2 :: rest3 =>
            have hred : (if ((if b0 = 0xE0 then
                  decide (0xA0 ≤ b1) && decide (b1 ≤ 0xBF)
                else if b0 = 0xED then
                  decide (0x80 ≤ b1) && decide (b1 ≤ 0x9F)
                else isCont b1) && isCont b2) = true then
                some ((b0 - 0xE0) * 4096 + (b1 - 0x80) * 64 +
                  (b2 - 0x80), 3)
              else none) = some (c, k) := by
              rw [← h]
              simp [utf8DecodeStep, h1, h2, h3]
            by_cases hok : ((if b0 = 0xE0 then
                  decide (0xA0 ≤ b1) && decide (b1 ≤ 0xBF)
                else if b0 = 0xED then
                  decide (0x80 ≤ b1) && decide (b1 ≤ 0x9F)
                else isCont b1) && isCont b2) = true
            · rw [if_pos hok] at hred
              simp only [Option.some.injEq, Prod.mk.injEq] at hred
              obtain ⟨rfl, rfl⟩ := hred
              simp only [Bool.and_eq_true, decide_eq_true_eq] at h3
              obtain ⟨hA, hB⟩ := Bool.and_eq_true .. |>.mp hok
              have hb2 : 0x80 ≤ b2 ∧ b2 ≤ 0xBF := by
                simpa [isCont, Bool.and_eq_true, decide_eq_true_eq] using hB
              have hb1 : 0x80 ≤ b1 ∧ b1 ≤ 0xBF ∧
                  (b0 = 0xE0 → 0xA0 ≤ b1) ∧ (b0 = 0xED → b1 ≤ 0x9F) := by
                split_ifs at hA with he0 hed <;>
                  simp only [isCont, Bool.and_eq_true, decide_eq_true_eq]
                    at hA <;> omega
              refine ⟨?_, by omega, by simp⟩
              simp only [utf8EncodeChar]
              rw [if_neg (by omega), if_neg (by omega), if_pos (by omega)]
              simp only [List.take, List.cons.injEq]
              exact ⟨by omega, by omega, by omega, trivial⟩
            · rw [if_neg hok] at hred
              exact Option.noConfusion hred
        · by_cases h4 : (decide (0xF0 ≤ b0) && decide (b0 ≤ 0xF4)) = true
          · -- four-byte lead
            match rest with
            | [] => simp [utf8DecodeStep, h1, h2, h3, h4] at h
            | [b1] => simp [utf8DecodeStep, h1, h2, h3, h4] at h
            | [b1, b2] => simp [utf8DecodeStep, h1, h2, h3, h4] at h
            | b1 :: b2 :: b3 :: rest4 =>
              have hred : (if ((if b0 = 0xF0 then
                    decide (0x90 ≤ b1) && decide (b1 ≤ 0xBF)
                  else if b0 = 0xF4 then
                    decide (0x80 ≤ b1) && decide (b1 ≤ 0x8F)
                  else isCont b1) && isCont b2 && isCont b3) = true then
                  some ((b0 - 0xF0) * 262144 + (b1 - 0x80) * 4096 +
                    (b2 - 0x80) * 64 + (b3 - 0x80), 4)
                else none) = some (c, k) := by
                rw [← h]
                simp [utf8DecodeStep, h1, h2, h3, h4]
              by_cases hok : ((if b0 = 0xF0 then
                    decide (0x90 ≤ b1) && decide (b1 ≤ 0xBF)
                  else if b0 = 0xF4 then
                    decide (0x80 ≤ b1) && decide (b1 ≤ 0x8F)
                  else isCont b1) && isCont b2 && isCont b3) = true
              · rw [if_pos hok] at hred
                simp only [Option.some.injEq, Prod.mk.injEq] at hred
                obtain ⟨rfl, rfl⟩ := hred
                simp only [Bool.and_eq_true, decide_eq_true_eq] at h4
                obtain ⟨hAB, hC⟩ := Bool.and_eq_true .. |>.mp hok
                obtain ⟨hA, hB⟩ := Bool.and_eq_true .. |>.mp hAB
                have hb2 : 0x80 ≤ b2 ∧ b2 ≤ 0xBF := by
                  simpa [isCont, Bool.and_eq_true, decide_eq_true_eq]
                    using hB
                have hb3 : 0x80 ≤ b3 ∧ b3 ≤ 0xBF := by
                  simpa [isCont, Bool.and_eq_true, decide_eq_true_eq]
                    using hC
                have hb1 : 0x80 ≤ b1 ∧ b1 ≤ 0xBF ∧
                    (b0 = 0xF0 → 0x90 ≤ b1) ∧
                    (b0 = 0xF4 → b1 ≤ 0x8F) := by
                  split_ifs at hA with hf0 hf4 <;>
                    simp only [isCont, Bool.and_eq_true, decide_eq_true_eq]
                      at hA <;> omega
                refine ⟨?_, by omega, by simp⟩
                simp only [utf8EncodeChar]
                rw [if_neg (by omega), if_neg (by omega), if_neg (by omega)]
                simp only [List.take, List.cons.injEq]
                exact ⟨by omega, by omega, by omega, by omega, trivial⟩
              · rw [if_neg hok] at hred
                exact Option.noConfusion hred
          · simp [utf8DecodeStep, h1, h2, h3, h4] at h

theorem utf8DecodeAux_encode :
    ∀ (fuel : Nat) (l s : List Nat),
      utf8DecodeAux fuel l = some s → utf8Encode s = l := by
  intro fuel
  induction fuel with
  | zero =>
    intro l s h
    cases l with
    | nil =>
      simp only [utf8DecodeAux, Option.some.injEq] at h
      subst h; rfl
    | cons b0 rest => exact Option.noConfusion h
  | succ n ih =>
    intro l s h
    cases l with
    | nil =>
      simp only [utf8DecodeAux, Option.some.injEq] at h
      subst h; rfl
    | cons b0 rest =>
      simp only [utf8DecodeAux] at h
      cases hstep : utf8DecodeStep (b0 :: rest) with
      | none => rw [hstep] at h; exact Option.noConfusion h
      | some ck =>
        obtain ⟨c, k⟩ := ck
        rw [hstep] at h
        simp only [Option.map_eq_some'] at h
        obtain ⟨s', hs', rfl⟩ := h
        obtain ⟨henc, -, -⟩ := utf8DecodeStep_encode _ _ _ hstep
        have htail := ih _ _ hs'
        show utf8EncodeChar c ++ utf8Encode s' = b0 :: rest
        rw [henc, htail, List.take_append_drop]

theorem utf8LossyAux_of_decodeAux :
    ∀ (fuel : Nat) (l s : List Nat),
      utf8DecodeAux fuel l = some s → utf8LossyAux fuel l = s := by
  intro fuel
  induction fuel with
  | zero =>
    intro l s h
    cases l with
    | nil =>
      simp only [utf8DecodeAux, Option.some.injEq] at h
      subst h; rfl
    | cons b0 rest => exact Option.noConfusion h
  | succ n ih =>
    intro l s h
    cases l with
    | nil =>
      simp only [utf8DecodeAux, Option.some.injEq] at h
      subst h; rfl
    | cons b0 rest =>
      simp only [utf8DecodeAux] at h
      cases hstep : utf8DecodeStep (b0 :: rest) with
      | none => rw [hstep] at h; exact Option.noConfusion h
      | some ck =>
        obtain ⟨c, k⟩ := ck
        rw [hstep] at h
        simp only [Option.map_eq_some'] at h
        obtain ⟨s', hs', rfl⟩ := h
        simp only [utf8LossyAux, hstep]
        rw [ih _ _ hs']

theorem utf8_decode_roundtrip (l s : List Nat)
    (h : utf8Decode? l = some s) :
    utf8Encode s = l ∧ utf8Lossy l = s :=
  ⟨utf8DecodeAux_encode _ _ _ h, utf8LossyAux_of_decodeAux _ _ _ h⟩

theorem takeWhile_no_colon (v : List Nat) :
    ∀ k : List Nat, 58 ∉ k →
      (k ++ 58 :: v).takeWhile (fun b => b != 58) = k := by
  intro k
  induction k with
  | nil => intro _; simp [List.takeWhile]
  | cons a k' ih =>
    intro hmem
    have ha : a ≠ 58 := fun hc => hmem (by simp [hc])
    have hne : (a != 58) = true := by simpa using ha
    simp only [List.cons_append, List.takeWhile_cons, hne, if_true]
    rw [ih (fun hc => hmem (List.mem_cons_of_mem _ hc))]

theorem drop_after_colon (k v : List Nat) :
    (k ++ 58 :: v).drop (k.length + 1) = v := by
  have h1 : k ++ 58 :: v = (k ++ [58]) ++ v := by simp
  have h2 : (k ++ [58]).length = k.length + 1 := by simp
  rw [h1, ← h2, List.drop_left]

theorem parseHeader_headerToSave (k v : List Nat) (h58 : 58 ∉ k)
    (hk : trimCp k = k) (hv : trimCp v = v) :
    parseHeader (headerToSave (k, v)) = some (k, v) := by
  have htw := takeWhile_no_colon v k h58
  have hlen : (k ++ 58 :: v).length = k.length + v.length + 1 := by
    simp; omega
  simp only [parseHeader, headerToSave, htw]
  rw [if_neg (by rw [hlen]; omega)]
  rw [drop_after_colon, hk, hv]

theorem filterMap_parseHeader_map :
    ∀ hs : List (List Nat × List Nat),
      (∀ kv ∈ hs, 58 ∉ kv.1 ∧ trimCp kv.1 = kv.1 ∧ trimCp kv.2 = kv.2) →
      (hs.map headerToSave).filterMap parseHeader = hs := by
  intro hs
  induction hs with
  | nil => intro _; rfl
  | cons kv rest ih =>
    intro hcond
    obtain ⟨h58, hk, hv⟩ := hcond kv (List.mem_cons_self _ _)
    have hhd : parseHeader (headerToSave kv) = some kv := by
      obtain ⟨k, v⟩ := kv
      exact parseHeader_headerToSave k v h58 hk hv
    simp only [List.map_cons, List.filterMap_cons, hhd]
    rw [ih (fun x hx => hcond x (List.mem_cons_of_mem _ hx))]

theorem body_save_load (body : Option (List Nat))
    (h : ∀ bs, body = some bs → (utf8Decode? bs).isSome) :
    (body.map utf8Lossy).map utf8Encode = body := by
  cases body with
  | none => rfl
  | some bs =>
    have hsome := h bs rfl
    obtain ⟨s, hs⟩ := Option.isSome_iff_exists.mp hsome
    obtain ⟨henc, hlossy⟩ := utf8_decode_roundtrip bs s hs
    simp [hlossy, henc]

/-- C9 (amended): `load(save(cfg))` preserves every field of the HTTP,
TCP and UDS configurations — url/address/path, method, headers,
body/data, expect, concurrency, requests, duration, timeout,
keep_alive — provided the header names contain no colon, header names
and values carry no leading or trailing whitespace, the body/data is
strictly valid UTF-8, and duration and timeout are whole seconds and
whole milliseconds (as every constructor produces). -/
theorem config_roundtrip_preserved :
    (∀ cfg : HttpConfig,
      (∀ kv ∈ cfg.headers,
        58 ∉ kv.1 ∧ trimCp kv.1 = kv.1 ∧ trimCp kv.2 = kv.2) →
      (∀ bs, cfg.body = some bs → (utf8Decode? bs).isSome) →
      cfg.duration % 1000000000 = 0 → cfg.timeout % 1000000 = 0 →
      cfg.timeout / 1000000 < U64MOD →
      toHttpConfig (httpConfigToSave cfg) = cfg) ∧
    (∀ cfg : TcpConfig,
      (∀ bs, cfg.data = some bs → (utf8Decode? bs).isSome) →
      cfg.duration % 1000000000 = 0 → cfg.timeout % 1000000 = 0 →
      cfg.timeout / 1000000 < U64MOD →
      toTcpConfig (tcpConfigToSave cfg) = cfg) ∧
    (∀ cfg : UdsConfig,
      (∀ bs, cfg.data = some bs → (utf8Decode? bs).isSome) →
      cfg.duration % 1000000000 = 0 → cfg.timeout % 1000000 = 0 →
      cfg.timeout / 1000000 < U64MOD →
      toUdsConfig (udsConfigToSave cfg) = cfg) := by
  refine ⟨?_, ?_, ?_⟩
  · intro cfg hhdr hbody hdur htmod htlt
    obtain ⟨url, method, headers, body, conc, req, dur, tio, ka⟩ := cfg
    simp only at hhdr hbody hdur htmod htlt
    simp only [toHttpConfig, httpConfigToSave, Option.getD_some,
      HttpConfig.mk.injEq]
    refine ⟨trivial, trivial, ?_, body_save_load body hbody, trivial,
      trivial, ?_, ?_, trivial⟩
    · by_cases hemp : headers.isEmpty = true
      · have : headers = [] := List.isEmpty_iff.mp hemp
        simp [this]
      · simp only [Bool.not_eq_true] at hemp
        simp only [hemp, Bool.false_eq_true, if_false]
        exact filterMap_parseHeader_map headers hhdr
    · exact Nat.div_mul_cancel (Nat.dvd_of_mod_eq_zero hdur)
    · rw [Nat.mod_eq_of_lt htlt]
      exact Nat.div_mul_cancel (Nat.dvd_of_mod_eq_zero htmod)
  · intro cfg hdata hdur htmod htlt
    obtain ⟨addr, data, exp, conc, req, dur, tio, ka⟩ := cfg
    simp only at hdata hdur htmod htlt
    simp only [toTcpConfig, tcpConfigToSave, Option.getD_some,
      TcpConfig.mk.injEq]
    refine ⟨trivial, body_save_load data hdata, trivial, trivial,
      trivial, ?_, ?_, trivial⟩
    · exact Nat.div_mul_cancel (Nat.dvd_of_mod_eq_zero hdur)
    · rw [Nat.mod_eq_of_lt htlt]
      exact Nat.div_mul_cancel (Nat.dvd_of_mod_eq_zero htmod)
  · intro cfg hdata hdur htmod htlt
    obtain ⟨path, data, exp, conc, req, dur, tio, ka⟩ := cfg
    simp only at hdata hdur htmod htlt
    simp only [toUdsConfig, udsConfigToSave, Option.getD_some,
      UdsConfig.mk.injEq]
    refine ⟨trivial, body_save_load data hdata, trivial, trivial,
      trivial, ?_, ?_, trivial⟩
    · exact Nat.div_mul_cancel (Nat.dvd_of_mod_eq_zero hdur)
    · rw [Nat.mod_eq_of_lt htlt]
      exact Nat.div_mul_cancel (Nat.dvd_of_mod_eq_zero htmod)

/-- C9 counterexample: a configuration whose header value carries a
leading space — a perfectly valid UTF-8 text string — does not survive
`load(save(cfg))`: the loader trims it, so the claim does not hold for
every text-string configuration. -/
theorem config_roundtrip_header_trim_cex :
    toHttpConfig (httpConfigToSave
      ⟨strCp "u", strCp "GET", [([88], [32, 118])], none, 1, 100,
        10000000000, 30000000000, false⟩) =
      ⟨strCp "u", strCp "GET", [([88], [118])], none, 1, 100,
        10000000000, 30000000000, false⟩ ∧
    toHttpConfig (httpConfigToSave
      ⟨strCp "u", strCp "GET", [([88], [32, 118])], none, 1, 100,
        10000000000, 30000000000, false⟩) ≠
      ⟨strCp "u", strCp "GET", [([88], [32, 118])], none, 1, 100,
        10000000000, 30000000000, false⟩ := by
  refine ⟨rfl, ?_⟩
  intro hcontra
  exact absurd (congrArg HttpConfig.headers hcontra) (by decide)

/-- C9 witness: the round-trip at a concrete configuration with one
canonical header and a two-byte-UTF-8 body. -/
theorem config_roundtrip_preserved_witness :
    toHttpConfig (httpConfigToSave
      ⟨strCp "u", strCp "GET", [([88], [118])], some [104, 195, 169], 1,
        100, 10000000000, 30000000000, false⟩) =
      ⟨strCp "u", strCp "GET", [([88], [118])], some [104, 195, 169], 1,
        100, 10000000000, 30000000000, false⟩ :=
  config_roundtrip_preserved.1
    ⟨strCp "u", strCp "GET", [([88], [118])], some [104, 195, 169], 1,
      100, 10000000000, 30000000000, false⟩
    (by decide)
    (by intro bs h; injection h with h2; subst h2; decide)
    (by decide) (by decide) (by decide)

theorem expectLoop_notFound_of_invalid (T : Nat) (m : List Nat → Bool) :
    ∀ (evs : List ReadEv) (t : Nat) (buf : List Nat),
      (∀ b ∈ chunkBufs buf evs, utf8Decode? b = none) →
      eofBeforeErr evs = true →
      ∃ b2 t2, expectLoop T m evs t buf = .notFound b2 t2 := by
  intro evs
  induction evs with
  | nil => intro t buf _ heof; exact absurd heof (by simp [eofBeforeErr])
  | cons ev rest ih =>
    intro t buf hinval heof
    cases ev with
    | chunk d bytes =>
      by_cases ht : T ≤ t
      · exact ⟨buf, t, by simp only [expectLoop]; rw [if_pos ht]⟩
      · have hdec : utf8Decode? (buf ++ bytes) = none :=
          hinval _ (by simp [chunkBufs])
        have hcheck : checkBuf m (buf ++ bytes) = false := by
          simp [checkBuf, hdec]
        have htail : ∀ b ∈ chunkBufs (buf ++ bytes) rest,
            utf8Decode? b = none := by
          intro b hb
          exact hinval b (by simp [chunkBufs, hb])
        obtain ⟨b2, t2, hrec⟩ :=
          ih (t + d) (buf ++ bytes) htail (by simpa [eofBeforeErr] using heof)
        refine ⟨b2, t2, ?_⟩
        simp only [expectLoop]
        rw [if_neg ht, if_neg (by simp [hcheck])]
        exact hrec
    | eof d =>
      by_cases ht : T ≤ t
      · exact ⟨buf, t, by simp only [expectLoop]; rw [if_pos ht]⟩
      · exact ⟨buf, t + d, by simp only [expectLoop]; rw [if_neg ht]⟩
    | ioErr d => exact absurd heof (by simp [eofBeforeErr])

/-- C10 (amended): the regex is tested only when the accumulated buffer
is strictly valid UTF-8; when every buffer the loop checks fails strict
decoding, the check is skipped each time and the attempt (terminating at
EOF) fails with `ResponseValidation` even when a lossy decode of a
checked buffer would match. -/
theorem tcp_utf8_strict_match_skip
    (compile : List Nat → Option (List Nat → Bool)) (pat : List Nat)
    (m : List Nat → Bool) (data : Option (List Nat)) (T : Nat)
    (env : TcpAttemptEnv) (hc : compile pat = some m)
    (hcd : env.connectDur ≤ T) (hok : env.connectOk = true)
    (hw : writeStep data T env = none)
    (hinval : ∀ b ∈ chunkBufs [] env.reads, utf8Decode? b = none)
    (heof : eofBeforeErr env.reads = true)
    (_hlossy : ∃ b ∈ chunkBufs [] env.reads, m (utf8Lossy b) = true) :
    sendTcp compile data (some pat) T env =
      some (.error (.ResponseValidation (expectMsgCp pat))) := by
  obtain ⟨b2, t2, hloop⟩ :=
    expectLoop_notFound_of_invalid T m env.reads 0 [] hinval heof
  simp [sendTcp, Nat.not_lt.mpr hcd, hok, hw, hc, hloop]

/-- C10 counterexample: a stream that delivers the matching bytes first
and an invalid byte afterwards succeeds at the first check — the
universal statement of the claim (every stream containing matching bytes
plus any invalid sequence ends in ResponseValidation) is false, even though the
full stream is invalid UTF-8 and its lossy decode matches. -/
theorem tcp_utf8_strict_skip_cex :
    sendTcp (fun _ => some (containsSlice (strCp "hello"))) none
      (some (strCp "hello")) 1000
      ⟨0, true, 0, true,
        [.chunk 0 (utf8Encode (strCp "hello")), .chunk 0 [255]]⟩ =
      some (.ok (utf8Encode (strCp "hello"), 0 + 0 + 0)) ∧
    utf8Decode? (utf8Encode (strCp "hello") ++ [255]) = none ∧
    containsSlice (strCp "hello")
      (utf8Lossy (utf8Encode (strCp "hello") ++ [255])) = true := by
  refine ⟨rfl, by decide, by decide⟩

/-- C10 witness: the invalid byte arriving in front of the matching
bytes defeats every strict decode, and the attempt fails although the
lossy decode contains the pattern. -/
theorem tcp_utf8_strict_match_skip_witness :
    sendTcp (fun _ => some (containsSlice (strCp "hello"))) none
      (some (strCp "hello")) 1000
      ⟨0, true, 0, true,
        [.chunk 0 (255 :: utf8Encode (strCp "hello")), .eof 0]⟩ =
      some (.error (.ResponseValidation (expectMsgCp (strCp "hello")))) :=
  tcp_utf8_strict_match_skip
    (fun _ => some (containsSlice (strCp "hello"))) (strCp "hello")
    (containsSlice (strCp "hello")) none 1000
    ⟨0, true, 0, true,
      [.chunk 0 (255 :: utf8Encode (strCp "hello")), .eof 0]⟩
    rfl (by decide) rfl rfl (by decide) (by decide) (by decide)

/-- C2 witness: the floor-index rule evaluated at the one-element vector
`[7]`, and order-independence at a concrete permutation. -/
theorem percentile_floor_rule_witness :
    ([7] : List Nat) ≠ [] ∧
    (reduceStats [7]).p50 =
      (([7] : List Nat).insertionSort (· ≤ ·)).getD
        (min (([7] : List Nat).length * 50 / 100)
          (([7] : List Nat).length - 1)) 0 ∧
    reduceStats [3, 1] = reduceStats [1, 3] :=
  ⟨by decide, (percentile_floor_rule.1 [7] (by decide)).1,
   percentile_floor_rule.2.2.2 [3, 1] [1, 3] (by decide)⟩

/-- C5 counterexample: a TCP run whose expect pattern does not compile
returns `Ok` with the failure counted per attempt (completed 1,
successful 0, failed 1) — it is not a fatal startup error. -/
theorem tcp_invalid_regex_run_ok_cex :
    tcpRun (fun _ => none)
      ⟨strCp "a:1", some [104], some (strCp "("), 1, 1, 0, 1000, false⟩
      [[⟨0, true, 0, true, []⟩]] =
      .ok ⟨strCp "a:1", strCp "TCP", 1, 1, 0, 1,
        ⟨0, 0, 0, 0, 0, 0, 0⟩, 0, 0⟩ := rfl

/-- C5 witness: both amended clauses at concrete configurations. -/
theorem config_error_propagation_witness :
    httpRun (fun _ => none) true
      ⟨strCp "::", strCp "GET", [], none, 1, 1, 0, 1000, false⟩ [] =
      .error (.Config (strCp "Invalid URL: " ++ strCp "::")) ∧
    ∃ rep, tcpRun (fun _ => none)
        ⟨strCp "a:1", none, some (strCp "("), 1, 1, 0, 1000, false⟩ [] =
        .ok rep ∧ rep.successfulRequests = 0 ∧
        rep.failedRequests = rep.totalRequests :=
  ⟨config_error_propagation.1 (fun _ => none) true
    ⟨strCp "::", strCp "GET", [], none, 1, 1, 0, 1000, false⟩ [] rfl,
   config_error_propagation.2 (fun _ => none)
    ⟨strCp "a:1", none, some (strCp "("), 1, 1, 0, 1000, false⟩ []
    (strCp "(") rfl rfl⟩
